import Mathlib

/-!
Verification of the scrapper crawl-and-cache engine.

This file shallowly embeds the core of the repository in Lean 4:

* `app/internal/util.py` — `normalize_url` (URL canonicalization), built on a
  character-level model of the CPython `urllib.parse` helpers it calls
  (`urlparse`, `parse_qsl`, `urlencode`, `urlunparse`); the model follows the
  CPython implementations on ASCII input (percent-escapes are decoded
  bytewise, which agrees with CPython for ASCII bytes).
* `app/internal/redis_cache.py` — the two-tier (Redis + file) result cache.
* `app/internal/redis_queue.py` — the job queue, job records and the per-URL
  distributed lock.
* `app/router/deep_scrape.py` — the breadth-first deep-scrape crawler, its
  progress-percent emission, link validity filtering, and the async enqueue
  endpoint.
* `app/worker_deep_scrape.py` — the async worker's lock/finalize behaviour.
* `app/router/ws.py` — the websocket progress stream's initial-snapshot read.

External collaborators (the headless browser, `tldextract`, `urljoin`) are
model parameters, and the file-tier cache `app/internal/cache.py` (absent
from the sources) is modelled from the spec where noted.
-/

namespace Scrapper

/-! ### ASCII character/string helpers (models of Python `str` operations) -/

/-- Python `str.lower` on one character (ASCII model). -/
def lowerChar (c : Char) : Char :=
  if 'A' ≤ c ∧ c ≤ 'Z' then Char.ofNat (c.toNat + 32) else c

/-- Python `str.lower` on a character list (ASCII model). -/
def lowerL (s : List Char) : List Char := s.map lowerChar

/-- Python `str.lower` (ASCII model). -/
def pyLower (s : String) : String := ⟨lowerL s.data⟩

/-- Python `str.startswith` on character lists. -/
def startsL : List Char → List Char → Bool
  | [], _ => true
  | _ :: _, [] => false
  | a :: as, b :: bs => a == b && startsL as bs

/-- Python `needle in hay` substring containment on character lists. -/
def containsL (hay needle : List Char) : Bool :=
  if startsL needle hay then true
  else
    match hay with
    | [] => false
    | _ :: t => containsL t needle

/-- Split at the first occurrence of `sep`; `none` when `sep` is absent
(Python `str.split(sep, 1)` / `str.find`). -/
def splitAtFirst (sep : Char) : List Char → Option (List Char × List Char)
  | [] => none
  | c :: t =>
    if c == sep then some ([], t)
    else
      match splitAtFirst sep t with
      | some (a, b) => some (c :: a, b)
      | none => none

/-- Split on every occurrence of `sep` (Python `str.split(sep)`), worker. -/
def splitSepAux (sep : Char) : List Char → List Char → List (List Char)
  | [], acc => [acc.reverse]
  | c :: t, acc =>
    if c == sep then acc.reverse :: splitSepAux sep t []
    else splitSepAux sep t (c :: acc)

/-- Split on every occurrence of `sep` (Python `str.split(sep)`). -/
def splitSep (sep : Char) (s : List Char) : List (List Char) :=
  splitSepAux sep s []

/-- Join with a separator (Python `sep.join`). -/
def joinSep (sep : Char) : List (List Char) → List Char
  | [] => []
  | [x] => x
  | x :: y :: rest => x ++ sep :: joinSep sep (y :: rest)

/-! ### Model of `urllib.parse` (CPython, ASCII semantics) -/

/-- Result of `urllib.parse.urlparse` (components as character lists). -/
structure PyParsed where
  scheme : List Char
  netloc : List Char
  path : List Char
  params : List Char
  query : List Char
  fragment : List Char
deriving DecidableEq, Repr

/-- Characters allowed in a URL scheme (CPython `scheme_chars`). -/
def isSchemeChar (c : Char) : Bool :=
  c.isAlpha || c.isDigit || c == '+' || c == '-' || c == '.'

/-- Scheme-splitting step of CPython `urlsplit`: a leading
`alpha (alnum|+|-|.)* :` is removed and lowercased. -/
def splitScheme (url : List Char) : List Char × List Char :=
  match splitAtFirst ':' url with
  | some (bef, aft) =>
    if bef ≠ [] ∧ (match bef with | c :: _ => c.isAlpha | [] => false) = true
        ∧ bef.all isSchemeChar = true then
      (lowerL bef, aft)
    else ([], url)
  | none => ([], url)

/-- Netloc scan of CPython `urlsplit`: after `//`, up to `/`, `?` or `#`. -/
def splitNetloc (url : List Char) : List Char × List Char :=
  (url.takeWhile (fun c => !(c == '/' || c == '?' || c == '#')),
   url.dropWhile (fun c => !(c == '/' || c == '?' || c == '#')))

/-- Model of CPython `urllib.parse.urlsplit` (whitespace stripping of the
input, done by recent CPython for security, is not modelled). -/
def pyUrlsplitL (url : List Char) : PyParsed :=
  let (scheme, rest) := splitScheme url
  let (netloc, rest) :=
    if rest.take 2 = ['/', '/'] then splitNetloc (rest.drop 2) else ([], rest)
  let (rest, fragment) :=
    match splitAtFirst '#' rest with
    | some (a, b) => (a, b)
    | none => (rest, [])
  let (path, query) :=
    match splitAtFirst '?' rest with
    | some (a, b) => (a, b)
    | none => (rest, [])
  ⟨scheme, netloc, path, [], query, fragment⟩

/-- Index of the last `/` in `s` (caller guarantees one is present);
Python `str.rfind('/')`. -/
def rfindSlash (s : List Char) : Nat :=
  s.length - 1 - s.reverse.findIdx (· == '/')

/-- First index `≥ start` holding `sep` (Python `str.find(sep, start)`). -/
def findIdxFrom (sep : Char) (s : List Char) (start : Nat) : Option Nat :=
  match splitAtFirst sep (s.drop start) with
  | some (a, _) => some (start + a.length)
  | none => none

/-- CPython `urllib.parse._splitparams`: split `;params` off the last path
segment. -/
def splitParamsL (url : List Char) : List Char × List Char :=
  let i? :=
    if containsL url ['/'] then findIdxFrom ';' url (rfindSlash url)
    else findIdxFrom ';' url 0
  match i? with
  | some i => (url.take i, url.drop (i + 1))
  | none => (url, [])

/-- The `uses_params` scheme list of CPython `urllib.parse`: only these
schemes have `;params` split off the path by `urlparse`. -/
def uses_params_schemes : List (List Char) :=
  ["".data, "ftp".data, "hdl".data, "prospero".data, "http".data, "imap".data,
   "https".data, "shttp".data, "rtsp".data, "rtspu".data, "sip".data, "sips".data,
   "mms".data, "sftp".data, "tel".data]

/-- Model of CPython `urllib.parse.urlparse` on inputs `urlsplit` accepts:
`urlsplit`, then params splitting when the scheme is in `uses_params` and
the path holds a `;` (for any other scheme the `;params` text stays in the
path). -/
def pyUrlparseL (url : List Char) : PyParsed :=
  let s := pyUrlsplitL url
  if uses_params_schemes.contains s.scheme && containsL s.path [';'] then
    let (path, params) := splitParamsL s.path
    { s with path := path, params := params }
  else s

/-- The `ValueError` condition of CPython `urlsplit`: a netloc holding `[`
without `]` or `]` without `[` raises "Invalid IPv6 URL". -/
def netlocInvalid (netloc : List Char) : Bool :=
  (containsL netloc ['['] && !containsL netloc [']']) ||
  (containsL netloc [']'] && !containsL netloc ['['])

/-- Model of CPython `urllib.parse.urlparse` as `normalize_url` calls it:
`none` models the `ValueError` raised on a mismatched-bracket netloc.
(CPython 3.11+ additionally validates the contents of a correctly
bracketed host; the theorems below quantify only over bracket-free
netlocs, where no version raises, so that difference is immaterial
there.) -/
def pyUrlparseE (url : List Char) : Option PyParsed :=
  if netlocInvalid (pyUrlsplitL url).netloc then none
  else some (pyUrlparseL url)

/-- Hex digit value (Python `unquote` helper). -/
def hexVal (c : Char) : Option Nat :=
  if '0' ≤ c ∧ c ≤ '9' then some (c.toNat - 48)
  else if 'A' ≤ c ∧ c ≤ 'F' then some (c.toNat - 55)
  else if 'a' ≤ c ∧ c ≤ 'f' then some (c.toNat - 87)
  else none

/-- Model of CPython `urllib.parse.unquote`: `%XX` escapes decoded bytewise
(agrees with CPython on ASCII bytes); malformed escapes kept literally. -/
def unquoteL : List Char → List Char
  | [] => []
  | '%' :: h1 :: h2 :: rest =>
    match hexVal h1, hexVal h2 with
    | some a, some b => Char.ofNat (16 * a + b) :: unquoteL rest
    | _, _ => '%' :: unquoteL (h1 :: h2 :: rest)
  | c :: rest => c :: unquoteL rest

/-- `+` to space then unquote, as in CPython `parse_qsl`'s field handling. -/
def unquotePlusL (s : List Char) : List Char :=
  unquoteL (s.map fun c => if c == '+' then ' ' else c)

/-- One `name=value` field of `parse_qsl` with `keep_blank_values=True`:
empty fields are skipped, a field without `=` keeps a blank value. -/
def parseQslField (field : List Char) : Option (List Char × List Char) :=
  if field = [] then none
  else
    match splitAtFirst '=' field with
    | some (n, v) => some (unquotePlusL n, unquotePlusL v)
    | none => some (unquotePlusL field, [])

/-- Model of CPython `urllib.parse.parse_qsl(qs, keep_blank_values=True)`. -/
def pyParseQsl (qs : List Char) : List (List Char × List Char) :=
  (splitSep '&' qs).filterMap parseQslField

/-- Characters `quote_plus` never escapes (CPython `_ALWAYS_SAFE`). -/
def isAlwaysSafe (c : Char) : Bool :=
  c.isAlpha || c.isDigit || c == '_' || c == '.' || c == '-' || c == '~'

/-- Uppercase hex digit. -/
def hexDigitU (n : Nat) : Char :=
  if n < 10 then Char.ofNat (48 + n) else Char.ofNat (55 + n)

/-- `%XX` escape of one byte. -/
def percentByte (b : Nat) : List Char := ['%', hexDigitU (b / 16), hexDigitU (b % 16)]

/-- UTF-8 bytes of a character. -/
def utf8Bytes (c : Char) : List Nat :=
  let n := c.toNat
  if n < 0x80 then [n]
  else if n < 0x800 then [0xC0 + n / 64, 0x80 + n % 64]
  else if n < 0x10000 then [0xE0 + n / 4096, 0x80 + n / 64 % 64, 0x80 + n % 64]
  else [0xF0 + n / 262144, 0x80 + n / 4096 % 64, 0x80 + n / 64 % 64, 0x80 + n % 64]

/-- Model of CPython `urllib.parse.quote_plus` with default safe set. -/
def quotePlusL (s : List Char) : List Char :=
  (s.map fun c =>
    if isAlwaysSafe c then [c]
    else if c == ' ' then ['+']
    else ((utf8Bytes c).map percentByte).flatten).flatten

/-- Model of CPython `urllib.parse.urlencode` on a pair list. -/
def pyUrlencode (pairs : List (List Char × List Char)) : List Char :=
  joinSep '&' (pairs.map fun kv => quotePlusL kv.1 ++ '=' :: quotePlusL kv.2)

/-- Model of CPython `urllib.parse.urlunparse` (via `urlunsplit`). -/
def pyUrlunparse (scheme netloc path params query fragment : List Char) : List Char :=
  let url := if params ≠ [] then path ++ ';' :: params else path
  let url :=
    if netloc ≠ [] ∨ (url ≠ [] ∧ url.take 2 = ['/', '/']) then
      '/' :: '/' :: (netloc ++ (if url ≠ [] ∧ url.take 1 ≠ ['/'] then '/' :: url else url))
    else url
  let url := if scheme ≠ [] then scheme ++ ':' :: url else url
  let url := if query ≠ [] then url ++ '?' :: query else url
  if fragment ≠ [] then url ++ '#' :: fragment else url

/-! ### `normalize_url` and the cache key (`app/internal/util.py`,
`app/internal/redis_cache.py`) -/

/-- The default `ignore_params` list of `normalize_url`. -/
def ignoreParams : List (List Char) :=
  ["utm_source".data, "utm_medium".data, "utm_campaign".data, "utm_term".data,
   "utm_content".data, "ref".data, "referrer".data, "session".data, "fbclid".data,
   "gclid".data, "yclid".data, "mc_cid".data, "mc_eid".data]

/-- The filter of `normalize_url`:
`k not in ignore_params and not k.startswith('utm_')`. -/
def keepParam (k : List Char) : Bool :=
  !(ignoreParams.contains k) && !(startsL "utm_".data k)

/-- Python `str.rstrip('/')`: drop every trailing `/`. -/
def rstripSlashL (s : List Char) : List Char :=
  (s.reverse.dropWhile (· == '/')).reverse

/-- The path normalization of `normalize_url`:
`path = parsed.path or '/'` then strip the trailing slashes of a non-root
path. -/
def normPathL (p : List Char) : List Char :=
  let p := if p = [] then ['/'] else p
  if p ≠ ['/'] ∧ p.getLast? = some '/' then rstripSlashL p else p

/-- `normalize_url` from `app/internal/util.py` (character-list level):
lowercase the host, drop the fragment, drop tracking parameters, normalize
the trailing slash, rebuild with `urlunparse`; a `urlparse` exception hits
the `except` branch and returns the input unchanged (the function's local
bindings are inlined). -/
def normalizeUrlL (url : List Char) : List Char :=
  match pyUrlparseE url with
  | none => url
  | some parsed =>
    pyUrlunparse parsed.scheme (lowerL parsed.netloc) (normPathL parsed.path) []
      (pyUrlencode ((pyParseQsl parsed.query).filter fun kv => keepParam kv.1)) []

/-- `normalize_url` from `app/internal/util.py`. -/
def normalize_url (url : String) : String := ⟨normalizeUrlL url.data⟩

/-- Lowercase hex digit. -/
def hexDigitLo (n : Nat) : Char :=
  if n < 10 then Char.ofNat (48 + n) else Char.ofNat (87 + n)

/-- Modelled from the spec: `make_key` of the file-tier cache
(`app/internal/cache.py`, not among the sources). The spec requires a
"cryptographically strong hash (e.g., 160-bit hex digest) over the
canonicalized UTF-8 bytes"; we model it as a deterministic 160-bit fold
hash rendered as 40 hex characters. -/
def fileMakeKey (s : String) : String :=
  let h := s.data.foldl (fun h c => (h * 131 + c.toNat) % 2 ^ 160) 7
  ⟨(List.range 40).map fun i => hexDigitLo (h / 16 ^ (39 - i) % 16)⟩

/-- `RedisCache.make_key` from `app/internal/redis_cache.py`: hash of the
normalized URL. -/
def make_key (path : String) : String := fileMakeKey (normalize_url path)

/-! ### Claim C1: canonicalization collapses tracking/fragment/casing/slash
differences -/

/-- The non-tracking query pairs that `normalize_url` keeps. -/
def keptPairs (query : List Char) : List (List Char × List Char) :=
  (pyParseQsl query).filter fun kv => keepParam kv.1

/-- Two paths differing only by an empty-vs-`/` path or a non-root trailing
slash. -/
def pathsEquiv (p q : List Char) : Prop :=
  p = q ∨ (p ≠ ['/'] ∧ q = p ++ ['/']) ∨ (q ≠ ['/'] ∧ p = q ++ ['/'])

/-- No character at or below U+0020: CPython's `urlsplit` strips ASCII
whitespace and control characters from its input (and removes tab, CR and
LF anywhere), a preprocessing the character model omits; on strings
satisfying this predicate it is the identity. -/
def urlClean (s : String) : Prop := ∀ c ∈ s.data, ' ' < c

/-- Scope of the amended C1: both URLs are free of whitespace/control
characters and their netlocs hold no square bracket, so `urlparse` accepts
them in every CPython version and `normalize_url` does not take its
`except` fallback; on this scope they "differ only in tracking parameters,
the fragment, host letter-casing, an empty-vs-`/` path, or a non-root
trailing slash", expressed on parsed components. -/
def claimDiffOnly (u1 u2 : String) : Prop :=
  urlClean u1 ∧ urlClean u2 ∧
  containsL (pyUrlsplitL u1.data).netloc ['['] = false ∧
  containsL (pyUrlsplitL u1.data).netloc [']'] = false ∧
  containsL (pyUrlsplitL u2.data).netloc ['['] = false ∧
  containsL (pyUrlsplitL u2.data).netloc [']'] = false ∧
  (pyUrlparseL u1.data).scheme = (pyUrlparseL u2.data).scheme ∧
  lowerL (pyUrlparseL u1.data).netloc = lowerL (pyUrlparseL u2.data).netloc ∧
  pathsEquiv (pyUrlparseL u1.data).path (pyUrlparseL u2.data).path ∧
  keptPairs (pyUrlparseL u1.data).query = keptPairs (pyUrlparseL u2.data).query

instance (s : String) : Decidable (urlClean s) := by
  unfold urlClean; infer_instance

instance (p q : List Char) : Decidable (pathsEquiv p q) := by
  unfold pathsEquiv; infer_instance

instance (u1 u2 : String) : Decidable (claimDiffOnly u1 u2) := by
  unfold claimDiffOnly; infer_instance

lemma rstripSlashL_append_slash (p : List Char) :
    rstripSlashL (p ++ ['/']) = rstripSlashL p := by
  simp [rstripSlashL, List.dropWhile]

lemma rstripSlashL_of_not_slash (p : List Char) (h : p.getLast? ≠ some '/') :
    rstripSlashL p = p := by
  unfold rstripSlashL
  rw [← List.head?_reverse] at h
  cases hr : p.reverse with
  | nil =>
    have hp : p = [] := by simpa using congrArg List.reverse hr
    subst hp
    rfl
  | cons c t =>
    have hc : (c == '/') = false := by
      rw [hr] at h
      simp only [List.head?] at h
      simp only [beq_eq_false_iff_ne, ne_eq]
      intro hcc
      exact h (by rw [hcc])
    have hp : p = (c :: t).reverse := by rw [← hr, List.reverse_reverse]
    rw [List.dropWhile_cons, hc]
    simp only [Bool.false_eq_true, if_false]
    exact hp.symm

lemma normPathL_ne_nil (p : List Char) (h : p ≠ []) :
    normPathL p = if p ≠ ['/'] ∧ p.getLast? = some '/' then rstripSlashL p else p := by
  simp only [normPathL]
  simp only [if_neg h]

lemma normPathL_append_slash (p : List Char) (hp : p ≠ ['/']) :
    normPathL (p ++ ['/']) = normPathL p := by
  rcases eq_or_ne p [] with rfl | hpe
  · decide
  · have happ : p ++ ['/'] ≠ [] := by simp
    have hq1 : p ++ ['/'] ≠ ['/'] := by
      intro hcc
      have hlen := congrArg List.length hcc
      rcases p with _ | ⟨c, t⟩
      · exact hpe rfl
      · simp at hlen
    have hqlast : (p ++ ['/']).getLast? = some '/' := List.getLast?_concat p
    rw [normPathL_ne_nil _ happ, normPathL_ne_nil _ hpe]
    rw [if_pos ⟨hq1, hqlast⟩, rstripSlashL_append_slash]
    by_cases hl : p.getLast? = some '/'
    · rw [if_pos ⟨hp, hl⟩]
    · rw [if_neg (by rintro ⟨-, h2⟩; exact hl h2), rstripSlashL_of_not_slash p hl]

lemma normPathL_congr {p q : List Char} (h : pathsEquiv p q) :
    normPathL p = normPathL q := by
  rcases h with rfl | ⟨hp, rfl⟩ | ⟨hq, rfl⟩
  · rfl
  · exact (normPathL_append_slash p hp).symm
  · exact normPathL_append_slash q hq

lemma netlocInvalid_of_bracketFree {n : List Char}
    (h1 : containsL n ['['] = false) (h2 : containsL n [']'] = false) :
    netlocInvalid n = false := by
  simp [netlocInvalid, h1, h2]

lemma normalizeUrlL_of_parse (url : List Char) (h : netlocInvalid (pyUrlsplitL url).netloc = false) :
    normalizeUrlL url
      = pyUrlunparse (pyUrlparseL url).scheme (lowerL (pyUrlparseL url).netloc)
          (normPathL (pyUrlparseL url).path) []
          (pyUrlencode ((pyParseQsl (pyUrlparseL url).query).filter
            fun kv => keepParam kv.1)) [] := by
  unfold normalizeUrlL pyUrlparseE
  rw [h]
  simp

/-- Model control: for a scheme outside `uses_params` (here `ws`) the
`;params` text stays in the path, so URLs differing in it stay distinct
through `normalize_url`, as in CPython. -/
theorem normalize_url_ws_params_kept :
    normalize_url "ws://host/a;p" = "ws://host/a;p" ∧
    normalize_url "ws://host/a;p" ≠ normalize_url "ws://host/a" := by
  refine ⟨by decide, by decide⟩

/-- Association-list update (last write wins on lookup). -/
def kvSet {V : Type} (k : String) (v : V) (m : List (String × V)) : List (String × V) :=
  (k, v) :: m

/-- Association-list lookup. -/
def kvGet {V : Type} (k : String) (m : List (String × V)) : Option V :=
  match m with
  | [] => none
  | (k2, v) :: t => if k2 = k then some v else kvGet k t

/-- State of `RedisCache`: both tiers plus configuration. -/
structure CacheState (V : Type) where
  redis : List (String × V)
  file : List (String × V)
  redis_enabled : Bool
  phase : Nat
deriving Repr

/-- `RedisCache.store_result`: Redis write attempted when enabled and
`phase >= 1`; file backup attempted when `phase <= 2`; a file failure is
re-raised only when `success` is still false. Returns the reported
`success` flag and the new state. -/
def store_result {V : Type} (st : CacheState V) (key : String) (data : V)
    (redisOk fileOk : Bool) : Except Unit (Bool × CacheState V) :=
  let success := st.redis_enabled && decide (1 ≤ st.phase) && redisOk
  let st1 := if success then { st with redis := kvSet key data st.redis } else st
  if st.phase ≤ 2 then
    if fileOk then .ok (true, { st1 with file := kvSet key data st1.file })
    else if success then .ok (true, st1)
    else .error ()
  else .ok (success, st1)

/-- `RedisCache.load_result`: Redis first (when enabled and `phase >= 1`),
then the file tier (when `phase <= 2`); a file hit is opportunistically
backfilled into Redis via `store_result` (failures of the backfill are
swallowed). Returns the loaded value and the possibly-backfilled state. -/
def load_result {V : Type} (st : CacheState V) (key : String) :
    Option V × CacheState V :=
  match (if st.redis_enabled ∧ 1 ≤ st.phase then kvGet key st.redis else none) with
  | some v => (some v, st)
  | none =>
    if st.phase ≤ 2 then
      match kvGet key st.file with
      | some v =>
        match store_result st key v true true with
        | .ok (_, st2) => (some v, st2)
        | .error _ => (some v, st)
      | none => (none, st)
    else (none, st)

/-- `RedisCache.exists`: Redis checked first (when enabled and
`phase >= 1`), then the file tier (when `phase <= 2`). -/
def cacheExists {V : Type} (st : CacheState V) (key : String) : Bool :=
  if st.redis_enabled ∧ 1 ≤ st.phase ∧ (kvGet key st.redis).isSome then true
  else if st.phase ≤ 2 then (kvGet key st.file).isSome
  else false

/-- The KV tier being wiped (every Redis entry lost), the tier itself
staying reachable. -/
def wipeRedis {V : Type} (st : CacheState V) : CacheState V :=
  { st with redis := [] }

/-! ### Claim C3: store success reporting -/

/-- The Redis tier accepted the write of this `store_result` call. -/
def kvAccepted {V : Type} (st : CacheState V) (redisOk : Bool) : Prop :=
  st.redis_enabled = true ∧ 1 ≤ st.phase ∧ redisOk = true

/-- The file tier accepted the write of this `store_result` call. -/
def fileAccepted {V : Type} (st : CacheState V) (fileOk : Bool) : Prop :=
  st.phase ≤ 2 ∧ fileOk = true

lemma kvGet_kvSet_self {V : Type} (k : String) (v : V) (m : List (String × V)) :
    kvGet k (kvSet k v m) = some v := by
  simp [kvGet, kvSet]

/-- C3: `store_result` reports success iff at least one tier accepted the
write (in phases ≤ 2 the file tier is attempted and a file-only success
counts), and the file-tier failure is raised to the caller exactly when the
KV write did not succeed for the same operation. -/
theorem claim_c3_store_success_iff {V : Type} (st : CacheState V) (key : String)
    (data : V) (redisOk fileOk : Bool) :
    ((∃ st2, store_result st key data redisOk fileOk = .ok (true, st2)) ↔
      kvAccepted st redisOk ∨ fileAccepted st fileOk) ∧
    (store_result st key data redisOk fileOk = .error () ↔
      st.phase ≤ 2 ∧ fileOk = false ∧ ¬kvAccepted st redisOk) := by
  unfold store_result kvAccepted fileAccepted
  cases hre : st.redis_enabled <;> cases redisOk <;> cases fileOk <;>
    by_cases h1 : 1 ≤ st.phase <;> by_cases h2 : st.phase ≤ 2 <;>
      simp [hre, h1, h2]

/-- Witness for C3 (no propositional hypotheses, but exercised at a
concrete file-only-success input: Redis write refused, file write
accepted, success still reported). -/
theorem claim_c3_witness :
    (∃ st2, store_result (V := Nat) ⟨[], [], true, 1⟩ "k" 7 false true = .ok (true, st2)) ∧
    store_result (V := Nat) ⟨[], [], true, 1⟩ "k" 7 false false = .error () :=
  ⟨(claim_c3_store_success_iff ⟨[], [], true, 1⟩ "k" 7 false true).1.mpr
      (Or.inr ⟨by decide, rfl⟩),
   (claim_c3_store_success_iff ⟨[], [], true, 1⟩ "k" 7 false false).2.mpr
      ⟨by decide, rfl, by rintro ⟨-, -, h⟩; cases h⟩⟩

/-! ### Claim C2: store/load round trip across tiers -/

/-- C2 counterexample: with the file-tier write failing (an injected file
I/O failure) while the Redis write is accepted, `store_result` still
reports success (phase 2), but after the KV tier is wiped both `exists`
and `load` miss — the claim as stated fails. -/
theorem claim_c2_counterexample :
    store_result (V := Nat) ⟨[], [], true, 2⟩ "k" 0 true false
      = .ok (true, ⟨[("k", 0)], [], true, 2⟩) ∧
    (load_result (wipeRedis (⟨[("k", 0)], [], true, 2⟩ : CacheState Nat)) "k").1 = none ∧
    cacheExists (wipeRedis (⟨[("k", 0)], [], true, 2⟩ : CacheState Nat)) "k" = false :=
  ⟨rfl, rfl, rfl⟩

lemma cacheExists_of_redis_hit {V : Type} (st : CacheState V) (k : String)
    (he : st.redis_enabled = true) (hp : 1 ≤ st.phase) (hv : (kvGet k st.redis).isSome) :
    cacheExists st k = true := by
  unfold cacheExists
  rw [if_pos ⟨he, hp, hv⟩]

lemma cacheExists_of_file_hit {V : Type} (st : CacheState V) (k : String)
    (hp : st.phase ≤ 2) (hv : (kvGet k st.file).isSome) :
    cacheExists st k = true := by
  unfold cacheExists
  by_cases h : st.redis_enabled = true ∧ 1 ≤ st.phase ∧ (kvGet k st.redis).isSome = true
  · rw [if_pos h]
  · rw [if_neg h, if_pos hp]
    exact hv

lemma load_result_of_redis_hit {V : Type} (st : CacheState V) (k : String) (v : V)
    (he : st.redis_enabled = true) (hp : 1 ≤ st.phase) (hv : kvGet k st.redis = some v) :
    (load_result st k).1 = some v := by
  unfold load_result
  rw [if_pos ⟨he, hp⟩, hv]

lemma load_result_of_file_hit {V : Type} (st : CacheState V) (k : String) (v : V)
    (hr : (if st.redis_enabled ∧ 1 ≤ st.phase then kvGet k st.redis else none) = none)
    (hp : st.phase ≤ 2) (hv : kvGet k st.file = some v) :
    (load_result st k).1 = some v := by
  unfold load_result
  rw [hr, if_pos hp, hv]
  cases hst : store_result st k v true true with
  | ok p =>
    simp only [hst]
  | error e =>
    simp only [hst]

/-- C2 amended: after `store_result` reports success **and the file-tier
write was accepted**, `exists` is true and `load` returns the stored value,
and in phases 1 and 2 this persists across a wipe of the KV tier (file
fallback). -/
theorem claim_c2_amended {V : Type} (st : CacheState V) (k : String) (v : V)
    (st2 : CacheState V)
    (h : store_result st k v true true = .ok (true, st2)) :
    cacheExists st2 k = true ∧ (load_result st2 k).1 = some v ∧
    (st.phase ≤ 2 →
      cacheExists (wipeRedis st2) k = true ∧
      (load_result (wipeRedis st2) k).1 = some v) := by
  simp only [store_result, Bool.and_true, eq_self_iff_true, if_true] at h
  by_cases h2 : st.phase ≤ 2
  · rw [if_pos h2] at h
    by_cases hb : (st.redis_enabled && decide (1 ≤ st.phase)) = true
    · obtain ⟨he, hp⟩ : st.redis_enabled = true ∧ 1 ≤ st.phase := by simpa using hb
      rw [if_pos hb] at h
      injection h with h'
      injection h' with h1 hst
      subst hst
      refine ⟨cacheExists_of_redis_hit _ _ he hp ?_,
        load_result_of_redis_hit _ _ _ he hp ?_,
        fun _ => ⟨cacheExists_of_file_hit _ _ h2 ?_,
          load_result_of_file_hit _ _ _ ?_ h2 ?_⟩⟩ <;>
        simp [wipeRedis, kvGet, kvGet_kvSet_self]
    · have hbemb : ¬(st.redis_enabled = true ∧ 1 ≤ st.phase) := by
        intro hc
        exact hb (by simp [hc.1, hc.2])
      rw [if_neg hb] at h
      injection h with h'
      injection h' with h1 hst
      subst hst
      refine ⟨cacheExists_of_file_hit _ _ h2 ?_,
        load_result_of_file_hit _ _ _ (by rw [if_neg hbemb]) h2 ?_,
        fun _ => ⟨cacheExists_of_file_hit _ _ h2 ?_,
          load_result_of_file_hit _ _ _ ?_ h2 ?_⟩⟩ <;>
        simp [wipeRedis, kvGet, kvGet_kvSet_self, hbemb]
  · rw [if_neg h2] at h
    injection h with h'
    injection h' with h1 hst
    subst hst
    obtain ⟨he, hp⟩ : st.redis_enabled = true ∧ 1 ≤ st.phase := by
      have h1' := h1.symm
      simpa using h1'
    rw [if_pos (by simp [he, hp])]
    exact ⟨cacheExists_of_redis_hit _ _ he hp (by simp [kvGet_kvSet_self]),
      load_result_of_redis_hit _ _ _ he hp (kvGet_kvSet_self k v _),
      fun hc => absurd hc h2⟩

/-- Witness for C2's amended theorem at a concrete phase-1 store. -/
theorem claim_c2_witness :
    cacheExists (V := Nat) ⟨[("k", 5)], [("k", 5)], true, 1⟩ "k" = true ∧
    (load_result (V := Nat) ⟨[("k", 5)], [("k", 5)], true, 1⟩ "k").1 = some 5 ∧
    ((1 : Nat) ≤ 2 →
      cacheExists (wipeRedis (⟨[("k", 5)], [("k", 5)], true, 1⟩ : CacheState Nat)) "k" = true ∧
      (load_result (wipeRedis (⟨[("k", 5)], [("k", 5)], true, 1⟩ : CacheState Nat)) "k").1
        = some 5) :=
  claim_c2_amended ⟨[], [], true, 1⟩ "k" 5 ⟨[("k", 5)], [("k", 5)], true, 1⟩ rfl

/-! ### Claim C4: progress percent monotonicity
(`app/router/deep_scrape.py` per-page and end-of-level snapshots,
`app/worker_deep_scrape.py` terminal snapshot)

The crawler emits, per processed level of batch size `n`, one snapshot per
page (`percent = round(100 * (L + (i+1)/n) / D, 2)`) and one end-of-level
snapshot (`percent = round(100 * (L+1) / D, 2)`); the worker appends a
terminal snapshot with `percent = 100` on both the done and the error
path. A page whose render raises skips its snapshot, and a crawl aborted
by an exception stops mid-sequence, so the actually emitted sequence is a
sublist of the full one; numeric evaluation is modelled over `ℚ`. -/

/-- Round half to even: exact-rational model of Python `round`'s tie
breaking. -/
def rheInt (x : ℚ) : ℤ :=
  if x - ⌊x⌋ < 1 / 2 then ⌊x⌋
  else if 1 / 2 < x - ⌊x⌋ then ⌊x⌋ + 1
  else if Even ⌊x⌋ then ⌊x⌋ else ⌊x⌋ + 1

/-- Python `round(x, 2)`. -/
def round2 (x : ℚ) : ℚ := rheInt (x * 100) / 100

lemma rheInt_floor_le (x : ℚ) : ⌊x⌋ ≤ rheInt x := by
  unfold rheInt
  split_ifs <;> omega

lemma rheInt_le_floor_add_one (x : ℚ) : rheInt x ≤ ⌊x⌋ + 1 := by
  unfold rheInt
  split_ifs <;> omega

lemma rheInt_mono {x y : ℚ} (h : x ≤ y) : rheInt x ≤ rheInt y := by
  have hf : ⌊x⌋ ≤ ⌊y⌋ := Int.floor_le_floor h
  rcases eq_or_lt_of_le hf with hf | hf
  · unfold rheInt
    rw [← hf]
    split_ifs <;> first | omega | linarith
  · calc rheInt x ≤ ⌊x⌋ + 1 := rheInt_le_floor_add_one x
      _ ≤ ⌊y⌋ := by omega
      _ ≤ rheInt y := rheInt_floor_le y

lemma round2_mono {x y : ℚ} (h : x ≤ y) : round2 x ≤ round2 y := by
  unfold round2
  have h1 : rheInt (x * 100) ≤ rheInt (y * 100) := rheInt_mono (by linarith)
  have h2 : ((rheInt (x * 100) : ℚ)) ≤ (rheInt (y * 100) : ℚ) := by exact_mod_cast h1
  linarith

lemma rheInt_intCast (n : ℤ) : rheInt (n : ℚ) = n := by
  unfold rheInt
  rw [Int.floor_intCast, if_pos (by norm_num)]

lemma round2_100 : round2 100 = 100 := by
  unfold round2
  have h1 : (100 : ℚ) * 100 = ((10000 : ℤ) : ℚ) := by norm_num
  rw [h1, rheInt_intCast]
  norm_num

/-- Per-page percent snapshot value (`deep_scrape.py`, page callback),
including the source's `if len(level_urls) > 0 else 0` guard. -/
def pagePercent (D L n i : ℕ) : ℚ :=
  if 0 < n then round2 (100 * ((L : ℚ) + ((i : ℚ) + 1) / (n : ℚ)) / (D : ℚ)) else 0

/-- End-of-level percent snapshot value (`deep_scrape.py`, level
callback). -/
def levelPercent (D L : ℕ) : ℚ := round2 (100 * ((L : ℚ) + 1) / (D : ℚ))

/-- The percent values a fully processed level of batch size `n` emits. -/
def levelSnaps (D L n : ℕ) : List ℚ :=
  ((List.range n).map fun i => pagePercent D L n i) ++ [levelPercent D L]

/-- Percent values of the crawl from level `L` on, `ns` listing each
processed level's batch size. -/
def crawlSnapsFrom (D : ℕ) : ℕ → List ℕ → List ℚ
  | _, [] => []
  | L, n :: rest => levelSnaps D L n ++ crawlSnapsFrom D (L + 1) rest

/-- Lower bound carried through the induction: the percent of entering
level `L`. -/
def lbound (D L : ℕ) : ℚ := round2 (100 * (L : ℚ) / (D : ℚ))

lemma lbound_succ (D L : ℕ) : lbound D (L + 1) = levelPercent D L := by
  unfold lbound levelPercent
  push_cast
  rfl

lemma pagePercent_mono (D L n : ℕ) (hD : 1 ≤ D) (hn : 1 ≤ n) {i j : ℕ} (hij : i ≤ j) :
    pagePercent D L n i ≤ pagePercent D L n j := by
  unfold pagePercent
  rw [if_pos (by omega : 0 < n), if_pos (by omega : 0 < n)]
  apply round2_mono
  have hD' : (0 : ℚ) < D := by exact_mod_cast Nat.lt_of_lt_of_le Nat.zero_lt_one hD
  have hn' : (0 : ℚ) < n := by exact_mod_cast Nat.lt_of_lt_of_le Nat.zero_lt_one hn
  have hij' : (i : ℚ) ≤ j := by exact_mod_cast hij
  gcongr

lemma pagePercent_le_levelPercent (D L n i : ℕ) (hD : 1 ≤ D) (hn : 1 ≤ n)
    (hi : i < n) : pagePercent D L n i ≤ levelPercent D L := by
  unfold pagePercent levelPercent
  rw [if_pos (by omega : 0 < n)]
  apply round2_mono
  have hD' : (0 : ℚ) < D := by exact_mod_cast Nat.lt_of_lt_of_le Nat.zero_lt_one hD
  have hn' : (0 : ℚ) < n := by exact_mod_cast Nat.lt_of_lt_of_le Nat.zero_lt_one hn
  have hfrac : ((i : ℚ) + 1) / n ≤ 1 := by
    rw [div_le_one hn']
    exact_mod_cast hi
  gcongr

lemma lbound_le_pagePercent (D L n i : ℕ) (hD : 1 ≤ D) (hn : 1 ≤ n) :
    lbound D L ≤ pagePercent D L n i := by
  unfold lbound pagePercent
  rw [if_pos (by omega : 0 < n)]
  apply round2_mono
  have hD' : (0 : ℚ) < D := by exact_mod_cast Nat.lt_of_lt_of_le Nat.zero_lt_one hD
  have hn' : (0 : ℚ) < n := by exact_mod_cast Nat.lt_of_lt_of_le Nat.zero_lt_one hn
  have hfrac : (0 : ℚ) ≤ ((i : ℚ) + 1) / n := by positivity
  gcongr
  linarith

lemma lbound_le_levelPercent (D L : ℕ) (hD : 1 ≤ D) :
    lbound D L ≤ levelPercent D L := by
  unfold lbound levelPercent
  apply round2_mono
  have hD' : (0 : ℚ) < D := by exact_mod_cast Nat.lt_of_lt_of_le Nat.zero_lt_one hD
  gcongr
  linarith

lemma lbound_mono (D L : ℕ) (hD : 1 ≤ D) : lbound D L ≤ lbound D (L + 1) := by
  unfold lbound
  apply round2_mono
  have hD' : (0 : ℚ) < D := by exact_mod_cast Nat.lt_of_lt_of_le Nat.zero_lt_one hD
  have hc : ((L : ℚ)) ≤ ((L + 1 : ℕ) : ℚ) := by push_cast; linarith
  gcongr

lemma levelPercent_le_100 (D L : ℕ) (hL : L + 1 ≤ D) : levelPercent D L ≤ 100 := by
  have hD' : (0 : ℚ) < D := by
    exact_mod_cast Nat.lt_of_lt_of_le Nat.zero_lt_one (by omega : 1 ≤ D)
  have hraw : 100 * ((L : ℚ) + 1) / D ≤ 100 := by
    rw [div_le_iff₀ hD']
    have hc : ((L : ℚ)) + 1 ≤ D := by exact_mod_cast hL
    nlinarith
  calc levelPercent D L ≤ round2 100 := round2_mono hraw
    _ = 100 := round2_100

lemma pagePercent_le_100 (D L n i : ℕ) (hn : 1 ≤ n) (hi : i < n) (hL : L + 1 ≤ D) :
    pagePercent D L n i ≤ 100 :=
  le_trans (pagePercent_le_levelPercent D L n i (by omega) hn hi)
    (levelPercent_le_100 D L hL)

lemma levelSnaps_chain (D L n : ℕ) (hD : 1 ≤ D) (hn : 1 ≤ n) :
    (levelSnaps D L n).Chain' (· ≤ ·) := by
  unfold levelSnaps
  apply List.chain'_append.2
  refine ⟨?_, List.chain'_singleton _, ?_⟩
  · apply List.Pairwise.chain'
    rw [List.pairwise_map]
    exact (List.pairwise_lt_range n).imp
      (fun hab => pagePercent_mono D L n hD hn (le_of_lt hab))
  · intro x hx y hy
    have hxm := List.mem_of_mem_getLast? hx
    have hy' : levelPercent D L = y := by simpa using hy
    subst hy'
    obtain ⟨i, hi, rfl⟩ := List.mem_map.1 hxm
    exact pagePercent_le_levelPercent D L n i hD hn (List.mem_range.1 hi)

lemma crawlSnaps_props (D : ℕ) (hD : 1 ≤ D) (ns : List ℕ) :
    ∀ L : ℕ, L + ns.length ≤ D → (∀ n ∈ ns, 1 ≤ n) →
      (crawlSnapsFrom D L ns).Chain' (· ≤ ·) ∧
      (∀ q ∈ crawlSnapsFrom D L ns, lbound D L ≤ q ∧ q ≤ 100) := by
  induction ns with
  | nil =>
    intro L _ _
    exact ⟨List.chain'_nil, by simp [crawlSnapsFrom]⟩
  | cons n rest ih =>
    intro L hlen hall
    have hn : 1 ≤ n := hall n (by simp)
    have hrest : ∀ m ∈ rest, 1 ≤ m := fun m hm => hall m (by simp [hm])
    have hL1 : L + 1 ≤ D := by
      simp only [List.length_cons] at hlen
      omega
    have hlen' : (L + 1) + rest.length ≤ D := by
      simp only [List.length_cons] at hlen
      omega
    obtain ⟨ihc, ihb⟩ := ih (L + 1) hlen' hrest
    have hmem : ∀ q ∈ levelSnaps D L n, lbound D L ≤ q ∧ q ≤ 100 := by
      intro q hq
      unfold levelSnaps at hq
      rcases List.mem_append.1 hq with hq | hq
      · obtain ⟨i, hi, rfl⟩ := List.mem_map.1 hq
        exact ⟨lbound_le_pagePercent D L n i hD hn,
          pagePercent_le_100 D L n i hn (List.mem_range.1 hi) hL1⟩
      · have hq' : q = levelPercent D L := by simpa using hq
        subst hq'
        exact ⟨lbound_le_levelPercent D L hD, levelPercent_le_100 D L hL1⟩
    constructor
    · show (levelSnaps D L n ++ crawlSnapsFrom D (L + 1) rest).Chain' (· ≤ ·)
      apply List.chain'_append.2
      refine ⟨levelSnaps_chain D L n hD hn, ihc, ?_⟩
      intro x hx y hy
      have hxl : levelPercent D L = x := by
        unfold levelSnaps at hx
        rw [List.getLast?_concat] at hx
        simpa using hx
      subst hxl
      have hym := List.mem_of_mem_head? hy
      have := (ihb y hym).1
      rw [lbound_succ] at this
      exact this
    · intro q hq
      rcases List.mem_append.1 hq with hq | hq
      · exact hmem q hq
      · obtain ⟨h1, h2⟩ := ihb q hq
        exact ⟨le_trans (lbound_mono D L hD) h1, h2⟩

/-- C4: any sequence of snapshots the crawl emits (a sublist of the full
per-page/end-of-level sequence, allowing for failed renders and aborts)
followed by the worker's terminal snapshot is monotone non-decreasing in
`percent`, and the final snapshot carries `percent = 100`. The regress
guard of the claim is vacuous: the full raw sequence itself never
regresses. -/
theorem claim_c4_percent_monotone (D : ℕ) (ns : List ℕ) (emitted : List ℚ)
    (hD : 1 ≤ D) (hlen : ns.length ≤ D) (hns : ∀ n ∈ ns, 1 ≤ n)
    (hsub : List.Sublist emitted (crawlSnapsFrom D 0 ns)) :
    (emitted ++ [100]).Chain' (· ≤ ·) ∧
    (emitted ++ [100]).getLast? = some 100 := by
  obtain ⟨hc, hb⟩ := crawlSnaps_props D hD ns 0 (by omega) hns
  have hfull : (crawlSnapsFrom D 0 ns ++ [100]).Chain' (· ≤ ·) := by
    apply List.chain'_append.2
    refine ⟨hc, List.chain'_singleton _, ?_⟩
    intro x hx y hy
    have hxm : x ∈ crawlSnapsFrom D 0 ns := List.mem_of_mem_getLast? hx
    have hy' : (100 : ℚ) = y := by simpa using hy
    subst hy'
    exact (hb x hxm).2
  have hsub2 : List.Sublist (emitted ++ [100]) (crawlSnapsFrom D 0 ns ++ [100]) :=
    hsub.append (List.Sublist.refl _)
  exact ⟨hfull.sublist hsub2, List.getLast?_concat _⟩

lemma round2_int (n : ℤ) (x : ℚ) (h : x * 100 = (n : ℚ)) :
    round2 x = (n : ℚ) / 100 := by
  unfold round2
  rw [h, rheInt_intCast]

/-- Witness for C4: a depth-2 crawl with batch sizes 1 and 2, the level-0
end-of-level snapshot and one terminal-level snapshot dropped. -/
theorem claim_c4_witness :
    ((([50, 75, 100] : List ℚ)) ++ [100]).Chain' (· ≤ ·) ∧
    (([50, 75, 100] : List ℚ) ++ [100]).getLast? = some 100 := by
  have e1 : pagePercent 2 0 1 0 = 50 := by
    unfold pagePercent
    rw [if_pos (by norm_num : 0 < 1), round2_int 5000 _ (by push_cast; norm_num)]
    norm_num
  have e2 : levelPercent 2 0 = 50 := by
    unfold levelPercent
    rw [round2_int 5000 _ (by push_cast; norm_num)]
    norm_num
  have e3 : pagePercent 2 1 2 0 = 75 := by
    unfold pagePercent
    rw [if_pos (by norm_num : 0 < 2), round2_int 7500 _ (by push_cast; norm_num)]
    norm_num
  have e4 : pagePercent 2 1 2 1 = 100 := by
    unfold pagePercent
    rw [if_pos (by norm_num : 0 < 2), round2_int 10000 _ (by push_cast; norm_num)]
    norm_num
  have e5 : levelPercent 2 1 = 100 := by
    unfold levelPercent
    rw [round2_int 10000 _ (by push_cast; norm_num)]
    norm_num
  have hcalc : crawlSnapsFrom 2 0 [1, 2] = [50, 50, 75, 100, 100] := by
    simp [crawlSnapsFrom, levelSnaps, List.range_succ, e1, e2, e3, e4, e5]
  exact claim_c4_percent_monotone 2 [1, 2] [50, 75, 100] (by norm_num) (by norm_num)
    (by decide)
    (by rw [hcalc]
        exact .cons₂ _ (.cons _ (.cons₂ _ (.cons₂ _ (.cons _ .slnil)))))

/-! ### Breadth-first deep-scrape crawler (`app/router/deep_scrape.py`)

The BFS loop of `deep_scrape` over an abstract rendered web. External
collaborators are parameters of `CrawlEnv`: `links` is what the `links.js`
extractor returns for a page (an extractor error or falsy result behaves
like an empty list — nothing is pushed), `articleOk` whether `article.js`
returns a record without `err`, `urljoin` is `urllib.parse.urljoin`, and
`regDomain` is `tldextract(...).registered_domain`. Renders are modelled
as succeeding; a failed render only skips the page's own processing and
does not affect batch selection or the visited set, which the claims here
are about. -/

/-- The crawl-shaping fields of `DeepScrapeQueryParams`. -/
structure CrawlParams where
  depth : Nat
  max_urls_per_level : Nat
  same_domain_only : Bool
  exclude_patterns : List String

/-- External collaborators of the crawler. -/
structure CrawlEnv where
  links : String → List String
  articleOk : String → Bool
  urljoin : String → String → String
  regDomain : String → String

/-- Python `needle in hay` on strings. -/
def strContains (hay needle : String) : Bool := containsL hay.data needle.data

/-- The hard-coded `skip_patterns` list of `_is_valid_url`. -/
def skip_patterns : List String :=
  ["/login", "/logout", "/register", "/signup", "/admin",
   ".pdf", ".doc", ".docx", ".zip", ".exe", ".dmg",
   "mailto:", "tel:", "javascript:", "#",
   "/feed", "/rss", "/api/", "/ajax/"]

/-- `_is_valid_url` from `app/router/deep_scrape.py`: resolve against the
current URL, reject visited URLs, non-HTTP schemes, foreign registered
domains (when `same_domain_only`), user exclude substrings, and the
hard-coded skip substrings of the lowercased URL. -/
def is_valid_url (env : CrawlEnv) (link_url current_url base_domain : String)
    (params : CrawlParams) (visited : List String) : Bool :=
  let absolute_url := env.urljoin current_url link_url
  if visited.contains absolute_url then false
  else if !((pyUrlparseL absolute_url.data).scheme == "http".data
      || (pyUrlparseL absolute_url.data).scheme == "https".data) then false
  else if params.same_domain_only && !(env.regDomain absolute_url == base_domain) then false
  else if params.exclude_patterns.any (fun p => strContains absolute_url p) then false
  else if skip_patterns.any (fun p => strContains (pyLower absolute_url) p) then false
  else true

/-- A `(url, depth, parent_index)` entry of the crawl queue. -/
structure QEntry where
  url : String
  depth : Nat
  parent : Int
deriving DecidableEq, Repr

/-- The level-batching loop of `deep_scrape`: pop entries of the current
level off the queue head, skipping already-visited URLs and adding newly
seen URLs to the visited set as they are batched. Returns the batch, the
remaining queue and the new visited set. -/
def drainLevel (level : Nat) : List QEntry → List String →
    List QEntry × List QEntry × List String
  | [], visited => ([], [], visited)
  | e :: rest, visited =>
    if e.depth = level then
      if visited.contains e.url then drainLevel level rest visited
      else
        match drainLevel level rest (e.url :: visited) with
        | (batch, q, vis) => (e :: batch, q, vis)
    else ([], e :: rest, visited)

/-- The queue entries one page's link extraction pushes: the first 20
extracted links, filtered by `_is_valid_url`, resolved to absolute URLs,
tagged with the next level and the current flat-result length. -/
def pagePushes (env : CrawlEnv) (params : CrawlParams) (base_domain : String)
    (current_url : String) (current_level : Nat) (parentIdx : Int)
    (visited : List String) : List QEntry :=
  ((env.links current_url).take 20).filterMap fun link_url =>
    if is_valid_url env link_url current_url base_domain params visited then
      some ⟨env.urljoin current_url link_url, current_level + 1, parentIdx⟩
    else none

/-- Serial processing of a level batch: per page, run the link extractor
only when `current_level + 1 < depth` (appending its pushes to the queue
and recording the invocation's level), then aggregate the page when the
article extractor succeeded. The visited set is not touched here. Returns
the new queue, the new flat-result count, and the levels at which the link
extractor ran. -/
def processBatch (env : CrawlEnv) (params : CrawlParams) (base_domain : String)
    (level : Nat) : List QEntry → List String → List QEntry → Nat →
    List QEntry × Nat × List Nat
  | [], _, queue, results => (queue, results, [])
  | e :: rest, visited, queue, results =>
    let queue1 :=
      if level + 1 < params.depth then
        queue ++ pagePushes env params base_domain e.url level (results : Int) visited
      else queue
    let results1 := if env.articleOk e.url then results + 1 else results
    match processBatch env params base_domain level rest visited queue1 results1 with
    | (q2, r2, ex2) =>
      (q2, r2, (if level + 1 < params.depth then [level] else []) ++ ex2)

/-- Observation record of one iteration of the BFS loop. -/
structure IterRec where
  level : Nat
  queuePre : List QEntry
  visitedPre : List String
  fullBatch : List String
  batch : List String
  visitedPost : List String
deriving DecidableEq, Repr

/-- Crawl output: the per-iteration trace, the final visited set, the
levels of all link-extractor invocations and the flat-result count. -/
structure CrawlOut where
  trace : List IterRec
  visited : List String
  extractionLevels : List Nat
  totalResults : Nat
deriving Repr

/-- The `while url_queue and current_level < depth` loop of `deep_scrape`;
`fuel = depth - current_level` realizes the loop guard. Per iteration:
drain the current level's batch (adding to visited), stop if it is empty,
truncate it to the fan-out cap, process it serially, recurse at the next
level. -/
def crawlLoop (env : CrawlEnv) (params : CrawlParams) (base_domain : String) :
    Nat → Nat → List QEntry → List String → Nat → CrawlOut
  | 0, _, _, visited, results => ⟨[], visited, [], results⟩
  | fuel + 1, level, queue, visited, results =>
    match drainLevel level queue visited with
    | (batchEntries, queue1, visited1) =>
      if batchEntries = [] then ⟨[], visited1, [], results⟩
      else
        let levelEntries := batchEntries.take params.max_urls_per_level
        match processBatch env params base_domain level levelEntries visited1 queue1 results with
        | (queue2, results2, extr) =>
          let rest := crawlLoop env params base_domain fuel (level + 1) queue2 visited1 results2
          ⟨⟨level, queue, visited, batchEntries.map (·.url), levelEntries.map (·.url),
              visited1⟩ :: rest.trace,
            rest.visited, extr ++ rest.extractionLevels, rest.totalResults⟩

/-- The crawl of `deep_scrape`: seed the queue with `(seed, 0, -1)`, start
at level 0 with empty visited set and result list. -/
def deep_scrape_model (env : CrawlEnv) (params : CrawlParams) (seed : String) : CrawlOut :=
  crawlLoop env params (env.regDomain seed) params.depth 0 [⟨seed, 0, -1⟩] [] 0

/-! ### Claim C5: link-extraction depth gating -/

lemma processBatch_extr (env : CrawlEnv) (params : CrawlParams) (bd : String)
    (level : Nat) :
    ∀ (batch : List QEntry) (visited : List String) (queue : List QEntry) (results : Nat),
      ∀ x ∈ (processBatch env params bd level batch visited queue results).2.2,
        x = level ∧ level + 1 < params.depth := by
  intro batch
  induction batch with
  | nil =>
    intro visited queue results x hx
    simp [processBatch] at hx
  | cons e rest ih =>
    intro visited queue results x hx
    simp only [processBatch] at hx
    rcases List.mem_append.1 hx with hx | hx
    · by_cases hgate : level + 1 < params.depth
      · rw [if_pos hgate] at hx
        simp only [List.mem_singleton] at hx
        exact ⟨hx, hgate⟩
      · simp [hgate] at hx
    · exact ih _ _ _ x hx

lemma crawlLoop_extr (env : CrawlEnv) (params : CrawlParams) (bd : String) :
    ∀ (fuel level : Nat) (queue : List QEntry) (visited : List String) (results : Nat),
      ∀ x ∈ (crawlLoop env params bd fuel level queue visited results).extractionLevels,
        x + 1 < params.depth := by
  intro fuel
  induction fuel with
  | zero =>
    intro level queue visited results x hx
    simp [crawlLoop] at hx
  | succ n ih =>
    intro level queue visited results x hx
    rcases hdr : drainLevel level queue visited with ⟨batchEntries, queue1, visited1⟩
    by_cases hb : batchEntries = []
    · subst hb
      simp only [crawlLoop, hdr, if_pos rfl] at hx
      simp at hx
    · rcases hpr : processBatch env params bd level
          (batchEntries.take params.max_urls_per_level) visited1 queue1 results with
        ⟨queue2, results2, extr⟩
      simp only [crawlLoop, hdr, if_neg hb, hpr] at hx
      rcases List.mem_append.1 hx with hx | hx
      · obtain ⟨hxl, hgate⟩ := processBatch_extr env params bd level _ _ _ _ x (by
          rw [hpr]
          exact hx)
        rwa [hxl]
      · exact ih _ _ _ _ x hx

/-- C5: the link extractor runs at level `L` only when `L + 1 < depth`;
in particular, for `depth = 1` the crawler renders only the seed URL and
link extraction is never triggered. -/
theorem claim_c5_link_extraction_gating (env : CrawlEnv) (params : CrawlParams)
    (seed : String) (hF : 1 ≤ params.max_urls_per_level) :
    (∀ L ∈ (deep_scrape_model env params seed).extractionLevels, L + 1 < params.depth) ∧
    (params.depth = 1 →
      (deep_scrape_model env params seed).extractionLevels = [] ∧
      (deep_scrape_model env params seed).trace.map IterRec.batch = [[seed]]) := by
  constructor
  · intro L hL
    exact crawlLoop_extr env params (env.regDomain seed) params.depth 0 _ _ _ L hL
  · intro hdepth
    obtain ⟨m, hm⟩ : ∃ m, params.max_urls_per_level = m + 1 := by
      rcases hFe : params.max_urls_per_level with _ | m
      · omega
      · exact ⟨m, rfl⟩
    unfold deep_scrape_model
    simp [crawlLoop, drainLevel, processBatch, hm, hdepth, List.take_succ_cons]

/-- Witness for C5: a depth-1 crawl of a seed that links to another page
renders only the seed and never runs link extraction. -/
theorem claim_c5_witness :
    (∀ L ∈ (deep_scrape_model
        ⟨fun _ => ["http://site.test/p1"], fun _ => true, fun _ l => l, fun _ => "site.test"⟩
        ⟨1, 3, true, []⟩ "http://site.test/").extractionLevels, L + 1 < 1) ∧
    ((1 : Nat) = 1 →
      (deep_scrape_model
        ⟨fun _ => ["http://site.test/p1"], fun _ => true, fun _ l => l, fun _ => "site.test"⟩
        ⟨1, 3, true, []⟩ "http://site.test/").extractionLevels = [] ∧
      (deep_scrape_model
        ⟨fun _ => ["http://site.test/p1"], fun _ => true, fun _ l => l, fun _ => "site.test"⟩
        ⟨1, 3, true, []⟩ "http://site.test/").trace.map IterRec.batch
          = [["http://site.test/"]]) :=
  claim_c5_link_extraction_gating _ _ _ (by decide)

/-! ### Claim C9: per-level fan-out cap and batch selection -/

/-- Specification-side description of level batching: the not-yet-visited
URLs in encounter order, each becoming visited as it is taken. -/
def filterNew (visited : List String) : List String → List String
  | [] => []
  | u :: rest =>
    if visited.contains u then filterNew visited rest
    else u :: filterNew (u :: visited) rest

lemma drainLevel_batch_spec (level : Nat) :
    ∀ (q : List QEntry) (vis : List String),
      (drainLevel level q vis).1.map QEntry.url
        = filterNew vis ((q.takeWhile (fun e => e.depth == level)).map QEntry.url) := by
  intro q
  induction q with
  | nil => intro vis; simp [drainLevel, filterNew]
  | cons e rest ih =>
    intro vis
    by_cases hd : e.depth = level
    · rw [List.takeWhile_cons]
      simp only [hd, beq_self_eq_true, if_true, List.map_cons]
      by_cases hv : vis.contains e.url
      · rw [drainLevel, if_pos hd, if_pos hv]
        rw [filterNew, if_pos hv]
        exact ih vis
      · rw [drainLevel, if_pos hd, if_neg hv]
        rcases hdr : drainLevel level rest (e.url :: vis) with ⟨batch, q1, vis1⟩
        rw [filterNew, if_neg hv]
        have := ih (e.url :: vis)
        rw [hdr] at this
        simpa using this
    · have hd' : (e.depth == level) = false := by simp [hd]
      rw [List.takeWhile_cons]
      rw [drainLevel, if_neg hd, hd']
      simp [filterNew]

lemma crawlLoop_trace_shape (env : CrawlEnv) (params : CrawlParams) (bd : String) :
    ∀ (fuel level : Nat) (queue : List QEntry) (visited : List String) (results : Nat),
      ∀ rec ∈ (crawlLoop env params bd fuel level queue visited results).trace,
        rec.batch = rec.fullBatch.take params.max_urls_per_level ∧
        rec.batch.length ≤ params.max_urls_per_level ∧
        rec.fullBatch = filterNew rec.visitedPre
          ((rec.queuePre.takeWhile (fun e => e.depth == rec.level)).map QEntry.url) := by
  intro fuel
  induction fuel with
  | zero =>
    intro level queue visited results rec hrec
    simp [crawlLoop] at hrec
  | succ n ih =>
    intro level queue visited results rec hrec
    rcases hdr : drainLevel level queue visited with ⟨batchEntries, queue1, visited1⟩
    by_cases hb : batchEntries = []
    · subst hb
      simp only [crawlLoop, hdr, if_pos rfl] at hrec
      simp at hrec
    · rcases hpr : processBatch env params bd level
          (batchEntries.take params.max_urls_per_level) visited1 queue1 results with
        ⟨queue2, results2, extr⟩
      simp only [crawlLoop, hdr, if_neg hb, hpr, List.mem_cons] at hrec
      rcases hrec with rfl | hrec
      · refine ⟨by simp [List.map_take], by simp [List.map_take, List.length_take_le], ?_⟩
        have hspec := drainLevel_batch_spec level queue visited
        rw [hdr] at hspec
        exact hspec
      · exact ih _ _ _ _ rec hrec

/-- Example web for the spec's scenario S2: the seed links to five valid
same-domain pages. -/
def exEnv : CrawlEnv where
  links := fun u =>
    if u = "http://site.test/" then
      ["http://site.test/p1", "http://site.test/p2", "http://site.test/p3",
       "http://site.test/p4", "http://site.test/p5"]
    else []
  articleOk := fun _ => true
  urljoin := fun _ l => l
  regDomain := fun _ => "site.test"

/-- Scenario S2 parameters: depth 2, fan-out cap 3. -/
def exParams : CrawlParams := ⟨2, 3, true, []⟩

/-- C9: every rendered batch is the drained level batch truncated to the
fan-out cap — at most `max_urls_per_level` pages per level, and the batch
is the first not-yet-visited URLs of the level in queue (encounter) order
truncated to the cap; on scenario S2 (five valid links, depth 2, cap 3)
exactly `1 + 3` pages are rendered and the level-1 batch is the first
three links in encounter order. -/
theorem claim_c9_fanout_cap (env : CrawlEnv) (params : CrawlParams) (seed : String) :
    (∀ rec ∈ (deep_scrape_model env params seed).trace,
        rec.batch.length ≤ params.max_urls_per_level ∧
        rec.batch = (filterNew rec.visitedPre
          ((rec.queuePre.takeWhile (fun e => e.depth == rec.level)).map QEntry.url)).take
            params.max_urls_per_level) ∧
    (deep_scrape_model exEnv exParams "http://site.test/").trace.map IterRec.batch
      = [["http://site.test/"],
         ["http://site.test/p1", "http://site.test/p2", "http://site.test/p3"]] := by
  constructor
  · intro rec hrec
    obtain ⟨h1, h2, h3⟩ :=
      crawlLoop_trace_shape env params (env.regDomain seed) params.depth 0 _ _ _ rec hrec
    exact ⟨h1 ▸ h2, by rw [h1, h3]⟩
  · decide

/-- Witness for C9: the concrete S2 scenario conjunct, by applying the
theorem. -/
theorem claim_c9_witness :
    (deep_scrape_model exEnv exParams "http://site.test/").trace.map IterRec.batch
      = [["http://site.test/"],
         ["http://site.test/p1", "http://site.test/p2", "http://site.test/p3"]] :=
  (claim_c9_fanout_cap exEnv exParams "http://site.test/").2

/-! ### Claim C10: visited-at-batching-time and truncation -/

lemma contains_iff_mem (l : List String) (a : String) : l.contains a = true ↔ a ∈ l :=
  List.elem_iff

lemma drainLevel_visited (level : Nat) :
    ∀ (q : List QEntry) (vis : List String),
      (∀ u, u ∈ (drainLevel level q vis).2.2 ↔
        u ∈ vis ∨ u ∈ (drainLevel level q vis).1.map QEntry.url) ∧
      ((drainLevel level q vis).1.map QEntry.url).Nodup ∧
      (∀ u ∈ (drainLevel level q vis).1.map QEntry.url, ¬u ∈ vis) := by
  intro q
  induction q with
  | nil =>
    intro vis
    simp [drainLevel]
  | cons e rest ih =>
    intro vis
    by_cases hd : e.depth = level
    · by_cases hv : vis.contains e.url
      · rw [drainLevel, if_pos hd, if_pos hv]
        exact ih vis
      · rw [drainLevel, if_pos hd, if_neg hv]
        have hnv : ¬e.url ∈ vis := fun hc => hv ((contains_iff_mem vis e.url).2 hc)
        rcases hdr : drainLevel level rest (e.url :: vis) with ⟨batch, q1, vis1⟩
        obtain ⟨iha, ihb, ihc⟩ := ih (e.url :: vis)
        rw [hdr] at iha ihb ihc
        simp only at iha ihb ihc ⊢
        refine ⟨?_, ?_, ?_⟩
        · intro u
          rw [iha u]
          simp only [List.mem_cons, List.map_cons]
          tauto
        · rw [List.map_cons]
          refine List.Pairwise.cons ?_ ihb
          intro b hb hbe
          exact ihc b hb (by rw [← hbe]; exact List.mem_cons_self _ _)
        · rw [List.map_cons]
          intro u hu
          rcases List.mem_cons.1 hu with rfl | hu
          · exact hnv
          · intro hc
            exact ihc u hu (List.mem_cons_of_mem _ hc)
    · rw [drainLevel, if_neg hd]
      simp

lemma crawlLoop_c10core (env : CrawlEnv) (params : CrawlParams) (bd : String) :
    ∀ (fuel level : Nat) (queue : List QEntry) (visited : List String) (results : Nat),
      (∀ rec ∈ (crawlLoop env params bd fuel level queue visited results).trace,
        ∀ u ∈ visited, u ∈ rec.visitedPre) ∧
      (∀ rec ∈ (crawlLoop env params bd fuel level queue visited results).trace,
        (∀ u ∈ rec.fullBatch, u ∈ rec.visitedPost) ∧
        rec.fullBatch.Nodup ∧
        (∀ u ∈ rec.fullBatch, ¬u ∈ rec.visitedPre)) ∧
      List.Pairwise (fun a b => ∀ u, u ∈ a.visitedPost → u ∈ b.visitedPre)
        (crawlLoop env params bd fuel level queue visited results).trace := by
  intro fuel
  induction fuel with
  | zero =>
    intro level queue visited results
    simp [crawlLoop]
  | succ n ih =>
    intro level queue visited results
    rcases hdr : drainLevel level queue visited with ⟨batchEntries, queue1, visited1⟩
    obtain ⟨dva, dvb, dvc⟩ := drainLevel_visited level queue visited
    rw [hdr] at dva dvb dvc
    simp only at dva dvb dvc
    by_cases hb : batchEntries = []
    · subst hb
      simp only [crawlLoop, hdr, if_pos rfl]
      simp
    · rcases hpr : processBatch env params bd level
          (batchEntries.take params.max_urls_per_level) visited1 queue1 results with
        ⟨queue2, results2, extr⟩
      obtain ⟨iha, ihb, ihc⟩ := ih (level + 1) queue2 visited1 results2
      have hsub : ∀ u ∈ visited, u ∈ visited1 := fun u hu => (dva u).2 (Or.inl hu)
      simp only [crawlLoop, hdr, if_neg hb, hpr, List.mem_cons]
      refine ⟨?_, ?_, ?_⟩
      · rintro rec (rfl | hrec)
        · exact fun u hu => hu
        · exact fun u hu => iha rec hrec u (hsub u hu)
      · rintro rec (rfl | hrec)
        · exact ⟨fun u hu => (dva u).2 (Or.inr hu), dvb, dvc⟩
        · exact ihb rec hrec
      · refine List.Pairwise.cons ?_ ihc
        intro b hbm u hu
        exact iha b hbm u hu

/-- C10: every URL drained into a level batch is in the visited set at
batching time (before truncation); a URL dropped by the truncation is
never rendered at this or any later level; and `_is_valid_url` rejects any
link whose absolute URL is already visited. -/
theorem claim_c10_truncation_visited (env : CrawlEnv) (params : CrawlParams)
    (seed : String) :
    (∀ rec ∈ (deep_scrape_model env params seed).trace,
      ∀ u ∈ rec.fullBatch, u ∈ rec.visitedPost) ∧
    (∀ i j, i ≤ j →
      ∀ ri rj, (deep_scrape_model env params seed).trace.get? i = some ri →
        (deep_scrape_model env params seed).trace.get? j = some rj →
        ∀ u ∈ ri.fullBatch, ¬u ∈ ri.batch → ¬u ∈ rj.batch) ∧
    (∀ (link cur bd : String) (visited : List String),
      env.urljoin cur link ∈ visited →
      is_valid_url env link cur bd params visited = false) := by
  simp only [deep_scrape_model]
  obtain ⟨hA, hB, hC⟩ :=
    crawlLoop_c10core env params (env.regDomain seed) params.depth 0 [⟨seed, 0, -1⟩] [] 0
  refine ⟨fun rec hrec => (hB rec hrec).1, ?_, ?_⟩
  · intro i j hij ri rj hri hrj u hu hnotbatch
    rcases eq_or_lt_of_le hij with rfl | hlt
    · rw [hri] at hrj
      injection hrj with hrj
      subst hrj
      exact hnotbatch
    · obtain ⟨hi, hgi⟩ := List.get?_eq_some.1 hri
      obtain ⟨hj, hgj⟩ := List.get?_eq_some.1 hrj
      have hrel := List.pairwise_iff_get.1 hC ⟨i, hi⟩ ⟨j, hj⟩ hlt
      rw [hgi, hgj] at hrel
      have hupost : u ∈ ri.visitedPost := (hB ri (by
        rw [← hgi]; exact List.get_mem _ _ _)).1 u hu
      have hupre : u ∈ rj.visitedPre := hrel u hupost
      have hrjmem : rj ∈ (deep_scrape_model env params seed).trace := by
        rw [← hgj]; exact List.get_mem _ _ _
      have hnotfull : ¬u ∈ rj.fullBatch := fun hc => (hB rj hrjmem).2.2 u hc hupre
      intro hbatch
      apply hnotfull
      obtain ⟨h1, -, -⟩ :=
        crawlLoop_trace_shape env params (env.regDomain seed) params.depth 0 _ _ _ rj hrjmem
      rw [h1] at hbatch
      exact List.take_subset _ _ hbatch
  · intro link cur bd visited hmem
    unfold is_valid_url
    rw [if_pos ((contains_iff_mem _ _).2 hmem)]

/-- The level-1 iteration record of scenario S2. -/
def exRec1 : IterRec :=
  ⟨1,
    [⟨"http://site.test/p1", 1, 0⟩, ⟨"http://site.test/p2", 1, 0⟩,
     ⟨"http://site.test/p3", 1, 0⟩, ⟨"http://site.test/p4", 1, 0⟩,
     ⟨"http://site.test/p5", 1, 0⟩],
    ["http://site.test/"],
    ["http://site.test/p1", "http://site.test/p2", "http://site.test/p3",
     "http://site.test/p4", "http://site.test/p5"],
    ["http://site.test/p1", "http://site.test/p2", "http://site.test/p3"],
    ["http://site.test/p5", "http://site.test/p4", "http://site.test/p3",
     "http://site.test/p2", "http://site.test/p1", "http://site.test/"]⟩

/-- Witness for C10 at scenario S2: the fourth link is drained into the
level-1 batch, dropped by the cap-3 truncation, and is not rendered. -/
theorem claim_c10_witness : ¬"http://site.test/p4" ∈ exRec1.batch :=
  (claim_c10_truncation_visited exEnv exParams "http://site.test/").2.1 1 1 (le_refl 1)
    exRec1 exRec1 (by decide) (by decide) "http://site.test/p4" (by decide) (by decide)

/-! ### Claim C6: per-URL distributed lock
(`app/internal/redis_queue.py` `acquire_lock`, `app/worker_deep_scrape.py`
`process_job`)

`held` is the set of live lock keys in Redis; "within one lock TTL" means
no key expires in the window considered, and the Redis `SET ... NX EX` is
a single atomic step, so an interleaving of two workers is two of these
steps in some order. -/

/-- `acquire_lock`: atomic set-if-absent on `lock:` + normalized URL. -/
def acquire_lock (held : List String) (url : String) : Bool × List String :=
  let key := "lock:" ++ normalize_url url
  if held.contains key then (false, held)
  else (true, key :: held)

/-- `release_lock`: delete the lock key. -/
def release_lock (held : List String) (url : String) : List String :=
  held.filter fun k => !(k == "lock:" ++ normalize_url url)

/-- Job states of the job record. -/
inductive JobStatus
  | pending
  | running
  | done
  | error
  | skipped
deriving DecidableEq, Repr

/-- The lock step of `process_job` (worker_deep_scrape.py lines 28-33):
on acquisition failure the job is finalized `skipped` with an explanatory
error string and the worker returns without crawling and without raising;
on success the job transitions to `running` and the crawl proceeds.
Returns the lock state, the status written, the error written, and
whether the crawl proceeds. -/
def process_job_lock (held : List String) (url : String) :
    List String × JobStatus × Option String × Bool :=
  match acquire_lock held url with
  | (false, held') =>
    (held', .skipped,
     some "Lock não adquirido, processamento concorrente detectado.", false)
  | (true, held') => (held', .running, none, true)

/-- C6: when two workers process jobs whose seed URLs normalize to the
same canonical URL within one lock TTL, at most one transitions its job to
`running`; if the first acquired the lock, the second finalizes `skipped`
with an explanatory error string and does not crawl. -/
theorem claim_c6_lock_exclusion (held : List String) (u1 u2 : String)
    (hnorm : normalize_url u1 = normalize_url u2) :
    ¬((process_job_lock held u1).2.1 = .running ∧
      (process_job_lock (process_job_lock held u1).1 u2).2.1 = .running) ∧
    ((process_job_lock held u1).2.1 = .running →
      (process_job_lock (process_job_lock held u1).1 u2).2.1 = .skipped ∧
      (process_job_lock (process_job_lock held u1).1 u2).2.2.1
        = some "Lock não adquirido, processamento concorrente detectado." ∧
      (process_job_lock (process_job_lock held u1).1 u2).2.2.2 = false) := by
  have hkey : "lock:" ++ normalize_url u2 = "lock:" ++ normalize_url u1 := by rw [hnorm]
  by_cases h1 : held.contains ("lock:" ++ normalize_url u1) = true
  · constructor
    · rintro ⟨hr, -⟩
      rw [process_job_lock, acquire_lock] at hr
      simp only [h1, if_true] at hr
      exact absurd hr (by decide)
    · intro hr
      rw [process_job_lock, acquire_lock] at hr
      simp only [h1, if_true] at hr
      exact absurd hr (by decide)
  · have h1' : held.contains ("lock:" ++ normalize_url u1) = false :=
      Bool.eq_false_iff.2 h1
    have hstep1 : process_job_lock held u1
        = ((("lock:" ++ normalize_url u1) :: held), .running, none, true) := by
      rw [process_job_lock, acquire_lock]
      simp only [h1', Bool.false_eq_true, if_false]
    have hcont : ((("lock:" ++ normalize_url u1) :: held)).contains
        ("lock:" ++ normalize_url u2) = true := by
      rw [hkey]
      exact (contains_iff_mem _ _).2 (List.mem_cons_self _ _)
    have hstep2 : process_job_lock ((("lock:" ++ normalize_url u1) :: held)) u2
        = ((("lock:" ++ normalize_url u1) :: held), .skipped,
           some "Lock não adquirido, processamento concorrente detectado.", false) := by
      rw [process_job_lock, acquire_lock]
      simp only [hcont, if_true]
    rw [hstep1]
    simp [hstep2]

/-- Witness for C6: two URLs normalizing to `https://a.test/x`, empty
initial lock set. -/
theorem claim_c6_witness :
    ¬((process_job_lock [] "https://A.test/x?utm_source=1").2.1 = .running ∧
      (process_job_lock (process_job_lock [] "https://A.test/x?utm_source=1").1
        "https://a.test/x/").2.1 = .running) ∧
    ((process_job_lock [] "https://A.test/x?utm_source=1").2.1 = .running →
      (process_job_lock (process_job_lock [] "https://A.test/x?utm_source=1").1
        "https://a.test/x/").2.1 = .skipped ∧
      (process_job_lock (process_job_lock [] "https://A.test/x?utm_source=1").1
        "https://a.test/x/").2.2.1
          = some "Lock não adquirido, processamento concorrente detectado." ∧
      (process_job_lock (process_job_lock [] "https://A.test/x?utm_source=1").1
        "https://a.test/x/").2.2.2 = false) :=
  claim_c6_lock_exclusion [] "https://A.test/x?utm_source=1" "https://a.test/x/"
    (by decide)

/-! ### Claim C8: websocket progress stream initial snapshot
(`app/router/ws.py`, `app/internal/redis_queue.py`)

The queue module keeps each job's progress inside the job record stored at
string key `deep_scrape_job:{job_id}`; the FIFO is the separate list key.
`ws_deep_scrape_progress` however GETs the string key
`job_progress:{job_id}` for its initial snapshot. -/

/-- A `deep_scrape_job:{job_id}` record; `P` is the progress snapshot
type, wall-clock timestamps are omitted. -/
structure JobRecord (P : Type) where
  job_id : String
  status : String
  error : Option String
  result_id : Option String
  progress : Option P
deriving DecidableEq, Repr

/-- The string keyspace plus the FIFO list key (`deep_scrape_jobs`). -/
structure QueueKV (P : Type) where
  strings : List (String × JobRecord P)
  fifo : List String
deriving Repr

/-- Key of a job record. -/
def jobKey (job_id : String) : String := "deep_scrape_job:" ++ job_id

/-- `enqueue_job`: write the pending record, push the ID on the FIFO. -/
def enqueue_job {P : Type} (kv : QueueKV P) (job_id : String) : QueueKV P :=
  ⟨kvSet (jobKey job_id) ⟨job_id, "pending", none, none, none⟩ kv.strings,
   job_id :: kv.fifo⟩

/-- `set_job_status`: read-modify-write of the job record (no-op when the
record is absent); `result_id`/`error` are only overwritten when given. -/
def set_job_status {P : Type} (kv : QueueKV P) (job_id status : String)
    (result_id error : Option String) : QueueKV P :=
  match kvGet (jobKey job_id) kv.strings with
  | none => kv
  | some job =>
    ⟨kvSet (jobKey job_id)
      { job with status := status,
                 result_id := if result_id.isSome then result_id else job.result_id,
                 error := if error.isSome then error else job.error } kv.strings,
     kv.fifo⟩

/-- `set_job_progress`: read-modify-write of the job record's progress
field (no-op when the record is absent). -/
def set_job_progress {P : Type} (kv : QueueKV P) (job_id : String) (progress : P) :
    QueueKV P :=
  match kvGet (jobKey job_id) kv.strings with
  | none => kv
  | some job =>
    ⟨kvSet (jobKey job_id) { job with progress := some progress } kv.strings, kv.fifo⟩

/-- `get_job_progress`: the progress field of the job record. -/
def get_job_progress {P : Type} (kv : QueueKV P) (job_id : String) : Option P :=
  match kvGet (jobKey job_id) kv.strings with
  | none => none
  | some job => job.progress

/-- The initial-snapshot read of `ws_deep_scrape_progress` (`ws.py`): GET
on string key `job_progress:{job_id}`; a hit is sent to the subscriber,
a miss sends nothing. -/
def ws_initial_snapshot {P : Type} (kv : QueueKV P) (job_id : String) :
    Option (JobRecord P) :=
  kvGet ("job_progress:" ++ job_id) kv.strings

/-- The operations that write to the queue module's string keyspace. -/
inductive QueueOp (P : Type)
  | enqueue (job_id : String)
  | setStatus (job_id status : String) (result_id error : Option String)
  | setProgress (job_id : String) (progress : P)

/-- Apply one queue operation. -/
def applyOp {P : Type} (kv : QueueKV P) : QueueOp P → QueueKV P
  | .enqueue id => enqueue_job kv id
  | .setStatus id st rid err => set_job_status kv id st rid err
  | .setProgress id p => set_job_progress kv id p

/-- Apply a sequence of queue operations. -/
def applyOps {P : Type} (kv : QueueKV P) : List (QueueOp P) → QueueKV P
  | [] => kv
  | op :: rest => applyOps (applyOp kv op) rest

lemma jobKey_ne_progressKey (a b : String) : jobKey a ≠ "job_progress:" ++ b := by
  intro h
  unfold jobKey at h
  have hd := congrArg String.data h
  rw [String.data_append, String.data_append] at hd
  have h2 : ("deep_scrape_job:".data ++ a.data).head? = some 'd' := rfl
  rw [hd] at h2
  have h3 : ("job_progress:".data ++ b.data).head? = some 'j' := rfl
  rw [h3] at h2
  exact absurd h2 (by decide)

lemma kvGet_kvSet_ne {V : Type} (k k2 : String) (h : k2 ≠ k) (v : V)
    (m : List (String × V)) : kvGet k (kvSet k2 v m) = kvGet k m := by
  simp [kvGet, kvSet, h]

lemma applyOp_progressKey {P : Type} (kv : QueueKV P) (op : QueueOp P) (id : String) :
    kvGet ("job_progress:" ++ id) (applyOp kv op).strings
      = kvGet ("job_progress:" ++ id) kv.strings := by
  cases op with
  | enqueue j =>
    exact kvGet_kvSet_ne _ _ (jobKey_ne_progressKey j id) _ _
  | setStatus j st rid err =>
    show kvGet ("job_progress:" ++ id) (set_job_status kv j st rid err).strings = _
    unfold set_job_status
    cases kvGet (jobKey j) kv.strings with
    | none => rfl
    | some job => exact kvGet_kvSet_ne _ _ (jobKey_ne_progressKey j id) _ _
  | setProgress j p =>
    show kvGet ("job_progress:" ++ id) (set_job_progress kv j p).strings = _
    unfold set_job_progress
    cases kvGet (jobKey j) kv.strings with
    | none => rfl
    | some job => exact kvGet_kvSet_ne _ _ (jobKey_ne_progressKey j id) _ _

lemma applyOps_progressKey {P : Type} :
    ∀ (ops : List (QueueOp P)) (kv : QueueKV P) (id : String),
      kvGet ("job_progress:" ++ id) (applyOps kv ops).strings
        = kvGet ("job_progress:" ++ id) kv.strings := by
  intro ops
  induction ops with
  | nil => intro kv id; rfl
  | cons op rest ih =>
    intro kv id
    rw [applyOps, ih, applyOp_progressKey]

/-- C8 (code bug): no queue operation ever writes the key
`job_progress:{job_id}` that the websocket handler reads for its initial
snapshot, so a late subscriber is never sent the stored snapshot — even
though `get_job_progress` (reading the job record, as intended) returns
it. Evaluated at the failing input: a job enqueued and with progress
stored via `set_job_progress`. -/
theorem claim_c8_ws_initial_snapshot_bug :
    (∀ (P : Type) (ops : List (QueueOp P)) (id : String),
      ws_initial_snapshot (applyOps (⟨[], []⟩ : QueueKV P) ops) id = none) ∧
    get_job_progress
      (set_job_progress (enqueue_job (⟨[], []⟩ : QueueKV Nat) "j") "j" 42) "j"
        = some 42 ∧
    ws_initial_snapshot
      (set_job_progress (enqueue_job (⟨[], []⟩ : QueueKV Nat) "j") "j" 42) "j"
        = none := by
  refine ⟨?_, rfl, ?_⟩
  · intro P ops id
    unfold ws_initial_snapshot
    rw [applyOps_progressKey]
    rfl
  · have h := applyOps_progressKey
      [QueueOp.enqueue (P := Nat) "j", QueueOp.setProgress "j" 42] ⟨[], []⟩ "j"
    exact h

/-! ### Claim C7: async enqueue cache key vs worker store key
(`app/router/deep_scrape.py` `deep_scrape_async` / `deep_scrape`,
`app/worker_deep_scrape.py`)

The async endpoint computes `r_id = redis_cache.make_key(body.url)` on the
full URL string. The worker builds a `DummyRequest` whose URL is the job's
target URL and `deep_scrape` keys the result by
`make_key(full_path)` where `split_url` takes `full_path` = path plus
query of that URL (no scheme or host); both `deep_scrape` and the worker
store the result under that key. -/

/-- Starlette's `URL(path=..., query=...)` rendered back to a string, as
`split_url` produces it: the path, plus `?query` when non-empty. -/
def worker_full_path (url : String) : String :=
  ⟨(pyUrlsplitL url.data).path ++
    (if (pyUrlsplitL url.data).query = [] then []
     else '?' :: (pyUrlsplitL url.data).query)⟩

/-- The key under which the worker-driven crawl stores its result. -/
def worker_store_key (url : String) : String := make_key (worker_full_path url)

/-- The key the async enqueue endpoint consults before enqueuing. -/
def async_cache_key (url : String) : String := make_key url

/-- The cache-hit decision of `deep_scrape_async`: `from_cache` is
returned (and no job enqueued) iff `load_result` under `async_cache_key`
hits. -/
def deep_scrape_async_from_cache {V : Type} (cache : CacheState V) (url : String) :
    Bool :=
  ((load_result cache (async_cache_key url)).1).isSome

/-- C8-style evaluation for C7 (code bug): for the URL
`https://a.example/x`, the worker stores its result under the fingerprint
of `/x` while the async endpoint consults the fingerprint of
`https://a.example/x`; the keys differ, the lookup misses although the
result is stored, and a fresh job is enqueued instead of `from_cache`. -/
theorem claim_c7_async_key_mismatch :
    worker_store_key "https://a.example/x" ≠ async_cache_key "https://a.example/x" ∧
    deep_scrape_async_from_cache (V := Nat)
      ⟨[(worker_store_key "https://a.example/x", 7)],
       [(worker_store_key "https://a.example/x", 7)], true, 2⟩
      "https://a.example/x" = false ∧
    (load_result (V := Nat)
      ⟨[(worker_store_key "https://a.example/x", 7)],
       [(worker_store_key "https://a.example/x", 7)], true, 2⟩
      (worker_store_key "https://a.example/x")).1 = some 7 := by
  refine ⟨by decide, by decide, by decide⟩

end Scrapper
